import Mathlib

/-!
Verification of the subprocess-based JSON-RPC client in
`src/lib/notion-mcp-server.ts` (vercel-labs/ai-sdk-slackbot).

The development shallowly embeds the client:
* `JVal` / `jsonParse` model JavaScript JSON values and `JSON.parse`
  (restricted to the escapes and number forms the protocol uses);
* `ClientState` models one `StdioClient` instance: its `messageQueue`
  map (as an association list) and its `messageId` counter;
* `handleLine` / `processChunk` model the `stdout.on("data")` handler;
* `sendRequest` / `fireTimeout` model `StdioClient.sendRequest` and the
  timeout callback it arms;
* `SysState`, `shutdownNotionMCPServer` and `onProcessExit` model the
  module-level singleton lifecycle.

Side effects (promise resolution, timer cancellation, writes to the
child process, diagnostic logging) are recorded as an explicit list of
`Event`s in program order.
-/

/-- JavaScript JSON values as produced by `JSON.parse`.  Numbers keep
their source lexeme: the client never does arithmetic on them, it only
tests truthiness and uses values as map keys. -/
inductive JVal where
  | null
  | bool (b : Bool)
  | num (lexeme : String)
  | str (s : String)
  | arr (elems : List JVal)
  | obj (fields : List (String × JVal))

/-- JSON whitespace (also the characters `String.prototype.trim` and the
framer care about). -/
def isJsWs (c : Char) : Bool :=
  c = ' ' || c = '\n' || c = '\t' || c = '\r' || c = '\x0b' || c = '\x0c'

/-- Drop leading JSON whitespace. -/
def skipWs : List Char → List Char
  | [] => []
  | c :: cs => if isJsWs c then skipWs cs else c :: cs

/-- Decode one character escape inside a JSON string literal. -/
def escDecode (c : Char) : Option Char :=
  if c = '"' then some '"'
  else if c = '\\' then some '\\'
  else if c = '/' then some '/'
  else if c = 'n' then some '\n'
  else if c = 't' then some '\t'
  else if c = 'r' then some '\r'
  else if c = 'b' then some '\x08'
  else if c = 'f' then some '\x0c'
  else none

/-- Parse the body of a JSON string literal (after the opening quote).
Returns the content and the remaining input after the closing quote. -/
def parseStrChars : List Char → Option (List Char × List Char)
  | [] => none
  | '"' :: r => some ([], r)
  | '\\' :: r =>
    match r with
    | [] => none
    | e :: r2 =>
      match escDecode e, parseStrChars r2 with
      | some ec, some (s, rest) => some (ec :: s, rest)
      | _, _ => none
  | c :: r =>
    match parseStrChars r with
    | some (s, rest) => some (c :: s, rest)
    | none => none

/-- Parse a JSON number lexeme (sign, integer part, optional fraction,
optional exponent), keeping the raw text. -/
def parseNumChars (cs : List Char) : Option (JVal × List Char) :=
  let (sign, cs1) :=
    match cs with
    | '-' :: r => (['-'], r)
    | _ => (([] : List Char), cs)
  let (ds, cs2) := cs1.span Char.isDigit
  if ds.isEmpty then none
  else
    let (fracPart, cs3) :=
      match cs2 with
      | '.' :: r =>
        let (fds, r2) := r.span Char.isDigit
        if fds.isEmpty then (none, cs2) else (some ('.' :: fds), r2)
      | _ => (none, cs2)
    match fracPart, cs3 with
    | none, '.' :: _ => none
    | _, _ =>
      let (expPart, cs4) :=
        match cs3 with
        | 'e' :: '-' :: r =>
          let (eds, r2) := r.span Char.isDigit
          if eds.isEmpty then (none, cs3) else (some ('e' :: '-' :: eds), r2)
        | 'e' :: '+' :: r =>
          let (eds, r2) := r.span Char.isDigit
          if eds.isEmpty then (none, cs3) else (some ('e' :: '+' :: eds), r2)
        | 'e' :: r =>
          let (eds, r2) := r.span Char.isDigit
          if eds.isEmpty then (none, cs3) else (some ('e' :: eds), r2)
        | 'E' :: r =>
          let (eds, r2) := r.span Char.isDigit
          if eds.isEmpty then (none, cs3) else (some ('E' :: eds), r2)
        | _ => (none, cs3)
      let lexeme := sign ++ ds ++ fracPart.getD [] ++ expPart.getD []
      some (JVal.num (String.mk lexeme), cs4)

mutual

/-- Recursive-descent JSON value parser, fuelled to make termination
structural.  `jsonParse` supplies ample fuel. -/
def parseVal : Nat → List Char → Option (JVal × List Char)
  | 0, _ => none
  | f + 1, cs =>
    match skipWs cs with
    | [] => none
    | '"' :: rest =>
      match parseStrChars rest with
      | some (content, r) => some (JVal.str (String.mk content), r)
      | none => none
    | '\x7b' :: rest =>
      match skipWs rest with
      | '\x7d' :: r => some (JVal.obj [], r)
      | other => parseObjItems f other []
    | '[' :: rest =>
      match skipWs rest with
      | ']' :: r => some (JVal.arr [], r)
      | other => parseArrItems f other []
    | 't' :: 'r' :: 'u' :: 'e' :: r => some (JVal.bool true, r)
    | 'f' :: 'a' :: 'l' :: 's' :: 'e' :: r => some (JVal.bool false, r)
    | 'n' :: 'u' :: 'l' :: 'l' :: r => some (JVal.null, r)
    | c :: rest =>
      if c = '-' || c.isDigit then parseNumChars (c :: rest) else none

/-- Parse the members of a JSON object after the opening brace (first
member onward); `acc` holds members already read, in source order. -/
def parseObjItems : Nat → List Char → List (String × JVal) →
    Option (JVal × List Char)
  | 0, _, _ => none
  | f + 1, cs, acc =>
    match skipWs cs with
    | '"' :: r =>
      match parseStrChars r with
      | none => none
      | some (key, r2) =>
        match skipWs r2 with
        | ':' :: r3 =>
          match parseVal f r3 with
          | none => none
          | some (v, r4) =>
            match skipWs r4 with
            | ',' :: r5 => parseObjItems f r5 (acc ++ [(String.mk key, v)])
            | '\x7d' :: r5 => some (JVal.obj (acc ++ [(String.mk key, v)]), r5)
            | _ => none
        | _ => none
    | _ => none

/-- Parse the elements of a JSON array after the opening bracket (first
element onward). -/
def parseArrItems : Nat → List Char → List JVal → Option (JVal × List Char)
  | 0, _, _ => none
  | f + 1, cs, acc =>
    match parseVal f cs with
    | none => none
    | some (v, r) =>
      match skipWs r with
      | ',' :: r2 => parseArrItems f r2 (acc ++ [v])
      | ']' :: r2 => some (JVal.arr (acc ++ [v]), r2)
      | _ => none

end

/-- Model of `JSON.parse(s)`: parse one value, require only trailing
whitespace after it, return `none` where `JSON.parse` would throw. -/
def jsonParse (s : String) : Option JVal :=
  match parseVal (s.data.length + 16) s.data with
  | some (v, rest) => if (skipWs rest).isEmpty then some v else none
  | none => none

/-- Field access `v.k` on a parsed JSON value: `none` models the
JavaScript `undefined`.  For duplicate keys `JSON.parse` keeps the last
occurrence, hence the left fold. -/
def getField : JVal → String → Option JVal
  | JVal.obj fs, k => fs.foldl (fun acc p => if p.1 = k then some p.2 else acc) none
  | _, _ => none

/-- Truthiness of `undefined` (`none`) or a JSON value, as JavaScript
`if (x)` evaluates it. -/
def truthy : Option JVal → Bool
  | none => false
  | some JVal.null => false
  | some (JVal.bool b) => b
  | some (JVal.num lex) =>
    (lex.data.takeWhile (fun c => !(c = 'e' || c = 'E'))).any
      (fun c => '1' ≤ c && c ≤ '9')
  | some (JVal.str s) => if s = "" then false else true
  | some (JVal.arr _) => true
  | some (JVal.obj _) => true

mutual

/-- JavaScript string coercion `String(v)` of a JSON value (used by
`new Error(message)` and template literals). -/
def jsValToString : JVal → String
  | JVal.null => "null"
  | JVal.bool true => "true"
  | JVal.bool false => "false"
  | JVal.num lex => lex
  | JVal.str s => s
  | JVal.arr xs => jsArrElems xs
  | JVal.obj _ => "[object Object]"

/-- Elements of `Array.prototype.toString`: joined with commas, `null`
elements rendered empty. -/
def jsArrElems : List JVal → String
  | [] => ""
  | [JVal.null] => ""
  | [x] => jsValToString x
  | JVal.null :: xs => "," ++ jsArrElems xs
  | x :: xs => jsValToString x ++ "," ++ jsArrElems xs

end

/-- `String(x)` where `x` may be `undefined`. -/
def jsToString : Option JVal → String
  | none => "undefined"
  | some v => jsValToString v

/-- One character of `JSON.stringify` string escaping. -/
def escEncode (c : Char) : String :=
  if c = '"' then "\\\""
  else if c = '\\' then "\\\\"
  else if c = '\n' then "\\n"
  else if c = '\t' then "\\t"
  else if c = '\r' then "\\r"
  else String.singleton c

/-- `JSON.stringify` of a string. -/
def stringifyStr (s : String) : String :=
  "\"" ++ String.join (s.data.map escEncode) ++ "\""

mutual

/-- `JSON.stringify` of a JSON value (object keys in insertion order,
as JavaScript guarantees for string keys). -/
def stringifyV : JVal → String
  | JVal.null => "null"
  | JVal.bool true => "true"
  | JVal.bool false => "false"
  | JVal.num lex => lex
  | JVal.str s => stringifyStr s
  | JVal.arr xs => "[" ++ stringifyItems xs ++ "]"
  | JVal.obj fs => "\x7b" ++ stringifyFields fs ++ "\x7d"

/-- Array elements of `JSON.stringify`, comma separated. -/
def stringifyItems : List JVal → String
  | [] => ""
  | [x] => stringifyV x
  | x :: xs => stringifyV x ++ "," ++ stringifyItems xs

/-- Object members of `JSON.stringify`, comma separated. -/
def stringifyFields : List (String × JVal) → String
  | [] => ""
  | [(k, v)] => stringifyStr k ++ ":" ++ stringifyV v
  | (k, v) :: fs => stringifyStr k ++ ":" ++ stringifyV v ++ "," ++ stringifyFields fs

end

/-- One entry of the `messageQueue` map.  The source stores the
`resolve`/`reject` callbacks; here their invocation is recorded as
`Event`s, and the entry keeps the request's method, which the armed
timeout callback captured in its closure. -/
structure PendingEntry where
  method : String
  deriving DecidableEq

/-- The mutable state of one `StdioClient` instance: the `messageQueue`
map (association list in insertion order, keys unique) and the
`messageId` counter. -/
structure ClientState where
  table : List (String × PendingEntry)
  messageId : Nat
  deriving DecidableEq

/-- `Map.prototype.get` on the pending table. -/
def tget : List (String × PendingEntry) → String → Option PendingEntry
  | [], _ => none
  | (k, v) :: rest, key => if k = key then some v else tget rest key

/-- `Map.prototype.set` on the pending table: replace in place or append. -/
def tset : List (String × PendingEntry) → String → PendingEntry →
    List (String × PendingEntry)
  | [], key, v => [(key, v)]
  | (k, v0) :: rest, key, v =>
    if k = key then (key, v) :: rest else (k, v0) :: tset rest key v

/-- `Map.prototype.delete` on the pending table. -/
def tdel : List (String × PendingEntry) → String → List (String × PendingEntry)
  | [], _ => []
  | (k, v) :: rest, key =>
    if k = key then tdel rest key else (k, v) :: tdel rest key

/-- Observable side effects of the client, in program order. -/
inductive Event where
  | armTimeout (id : String)
  | insertPending (id : String)
  | wrote (line : String)
  | cancelTimeout (id : String)
  | resolved (id : String) (value : Option JVal)
  | rejected (id : String) (message : String)
  | diagSkip (line : String)
  | diagParse (line : String)
  | diagNoId (line : String)
  | diagNoPending (id : String)
  | killedProcess

/-- Does this event resolve or reject a caller's promise? -/
def isOutcome : Event → Bool
  | Event.resolved _ _ => true
  | Event.rejected _ _ => true
  | _ => false

/-- Is this event mere diagnostic logging? -/
def isDiag : Event → Bool
  | Event.diagSkip _ => true
  | Event.diagParse _ => true
  | Event.diagNoId _ => true
  | Event.diagNoPending _ => true
  | _ => false

/-- The caller-visible resolutions and rejections among a list of events. -/
def outcomes (evs : List Event) : List Event := evs.filter isOutcome

/-- Does the line start with an opening brace (`message.startsWith("{")`)? -/
def startsWithBrace (l : String) : Bool :=
  match l.data with
  | [] => false
  | c :: _ => c = '\x7b'

/-- The message for `new Error(response.error.message)`. -/
def errMsg (errv : Option JVal) : String :=
  match errv with
  | some e => jsToString (getField e "message")
  | none => jsToString none

/-- The body of the `for (const message of messages)` loop in the
`stdout.on("data")` handler (src/lib/notion-mcp-server.ts lines
115-157): skip empty and non-JSON lines, parse, correlate by `id`,
reject on a truthy `error` else resolve with `result`, and delete the
entry; unknown or missing ids are only logged. -/
def handleLine (st : ClientState) (line : String) : ClientState × List Event :=
  if line = "" then (st, [])
  else if startsWithBrace line = false then (st, [Event.diagSkip line])
  else
    match jsonParse line with
    | none => (st, [Event.diagParse line])
    | some v =>
      let idv := getField v "id"
      if truthy idv = false then (st, [Event.diagNoId line])
      else
        match idv with
        | some (JVal.str i) =>
          (match tget st.table i with
           | none => (st, [Event.diagNoPending i])
           | some _ =>
             if truthy (getField v "error") then
               (⟨tdel st.table i, st.messageId⟩,
                [Event.cancelTimeout i,
                 Event.rejected i (errMsg (getField v "error"))])
             else
               (⟨tdel st.table i, st.messageId⟩,
                [Event.cancelTimeout i,
                 Event.resolved i (getField v "result")]))
        | _ => (st, [Event.diagNoPending (jsToString idv)])

/-- Process a list of candidate lines in order, threading the state. -/
def processLines (st : ClientState) : List String → ClientState × List Event
  | [] => (st, [])
  | l :: ls =>
    let r1 := handleLine st l
    let r2 := processLines r1.1 ls
    (r2.1, r1.2 ++ r2.2)

/-- JavaScript `String.prototype.trim`: drop whitespace at both ends. -/
def trimChars (cs : List Char) : List Char :=
  ((cs.dropWhile isJsWs).reverse.dropWhile isJsWs).reverse

/-- JavaScript `String.prototype.split("\n")` on a character list. -/
def splitNl : List Char → List (List Char)
  | [] => [[]]
  | c :: cs =>
    if c = '\n' then [] :: splitNl cs
    else
      match splitNl cs with
      | [] => [[c]]
      | l :: ls => (c :: l) :: ls

/-- `rawData.trim().split("\n")`: the candidate lines of one raw chunk
(src/lib/notion-mcp-server.ts line 114).  Each chunk is split
independently: nothing is carried over to the next chunk. -/
def chunkLines (c : String) : List String :=
  (splitNl (trimChars c.data)).map String.mk

/-- The whole `stdout.on("data")` handler applied to one raw chunk. -/
def processChunk (st : ClientState) (c : String) : ClientState × List Event :=
  processLines st (chunkLines c)

/-- The sequence of parsed envelopes the framer yields for a sequence of
raw chunks: per chunk, the candidate lines that start with `{` and parse
as JSON. -/
def framedEnvelopes (chunks : List String) : List JVal :=
  (chunks.map (fun c =>
    (chunkLines c).filterMap (fun l =>
      if l = "" then none
      else if startsWithBrace l = false then none
      else jsonParse l))).flatten

/-- Decimal digit character (for `String(n)` on a non-negative number). -/
def jsDigitChar (d : Nat) : Char :=
  match d with
  | 0 => '0' | 1 => '1' | 2 => '2' | 3 => '3' | 4 => '4'
  | 5 => '5' | 6 => '6' | 7 => '7' | 8 => '8' | _ => '9'

/-- Base-10 digits of `n`, least significant first, with explicit fuel
so that the definition evaluates by kernel reduction. -/
def natDigitsAux : Nat → Nat → List Nat
  | 0, _ => []
  | _, 0 => []
  | f + 1, n + 1 => ((n + 1) % 10) :: natDigitsAux f ((n + 1) / 10)

/-- JavaScript `String(n)` for a natural number: its decimal digits,
most significant first. -/
def jsString (n : Nat) : String :=
  if n = 0 then "0" else String.mk (((natDigitsAux n n).map jsDigitChar).reverse)

/-- Numeric value of a decimal digit character. -/
def digitVal (c : Char) : Nat := c.toNat - 48

/-- Read a decimal identifier string back as a number (proof tool for
comparing allocated identifiers). -/
def decodeId (s : String) : Nat :=
  Nat.ofDigits 10 ((s.data.map digitVal).reverse)

/-- The Request Envelope built by `sendRequest`, with the fields in the
source's insertion order. -/
def requestEnvelope (id method : String) (params : JVal) : JVal :=
  JVal.obj [("jsonrpc", JVal.str "2.0"), ("id", JVal.str id),
            ("method", JVal.str method), ("params", params)]

/-- The wire line written for one request: `JSON.stringify(request) + "\n"`. -/
def requestLine (id method : String) (params : JVal) : String :=
  stringifyV (requestEnvelope id method params) ++ "\n"

/-- `StdioClient.sendRequest` (src/lib/notion-mcp-server.ts lines
197-234): allocate `String(messageId++)`, then - inside the promise
executor, which runs synchronously - arm the 10-second timeout, insert
the pending entry, and only then write the serialized request line. -/
def sendRequest (st : ClientState) (method : String) (params : JVal) :
    ClientState × List Event :=
  let id := jsString st.messageId
  (⟨tset st.table id ⟨method⟩, st.messageId + 1⟩,
   [Event.armTimeout id, Event.insertPending id,
    Event.wrote (requestLine id method params)])

/-- The timeout callback armed by `sendRequest` (lines 213-218) firing
for identifier `i`: if the entry is still pending, delete it and reject
with the timeout error naming the method; otherwise do nothing. -/
def fireTimeout (st : ClientState) (i : String) : ClientState × List Event :=
  match tget st.table i with
  | some e =>
    (⟨tdel st.table i, st.messageId⟩,
     [Event.rejected i ("Request timed out after 10 seconds: " ++ e.method)])
  | none => (st, [])

/-- A sequence of `sendRequest` calls on one client instance.  The
identifier allocation `String(this.messageId++)` is a single synchronous
step of the JavaScript event loop, so concurrent callers interleave at
whole-call granularity and every schedule is some such sequence. -/
def runSends (st : ClientState) : List (String × JVal) → ClientState × List Event
  | [] => (st, [])
  | (m, p) :: rest =>
    let r1 := sendRequest st m p
    let r2 := runSends r1.1 rest
    (r2.1, r1.2 ++ r2.2)

/-- The identifiers registered in the pending table by a list of events,
in order of allocation. -/
def allocIds (evs : List Event) : List String :=
  evs.filterMap (fun e =>
    match e with
    | Event.insertPending i => some i
    | _ => none)

/-- `x` occurs strictly before `y` in `evs`. -/
def precedes (x y : Event) (evs : List Event) : Prop :=
  ∃ i j : Fin evs.length, (i : Nat) < j ∧ evs.get i = x ∧ evs.get j = y

/-- The module-level state around the client: whether
`notionMCPServerProcess` and `notionMCPClient` are non-null, plus the
client object's own state (which survives the references being nulled). -/
structure SysState where
  procRunning : Bool
  clientPresent : Bool
  client : ClientState
  deriving DecidableEq

/-- `shutdownNotionMCPServer(reason)` (src/lib/notion-mcp-server.ts
lines 285-292): if a process handle exists, kill it and null both
module references; otherwise only log.  The pending table is not
touched in either case. -/
def shutdownNotionMCPServer (s : SysState) : SysState × List Event :=
  if s.procRunning then
    ({ procRunning := false, clientPresent := false, client := s.client },
     [Event.killedProcess])
  else (s, [])

/-- The `notionMCPServerProcess.on("exit")` handler (lines 271-277):
log, null the process reference, null the client reference.  Nothing
else happens: in particular no pending entry is rejected. -/
def onProcessExit (s : SysState) : SysState × List Event :=
  ({ procRunning := false, clientPresent := false, client := s.client }, [])

/-- `StdioClient.getServerInfo` (lines 165-170): returns a fixed record,
performs no transport operation, changes no state, and cannot reject.
The explicit state argument and empty event list make that visible. -/
def getServerInfo (s : SysState) : (String × String) × SysState × List Event :=
  (("notion-mcp-server", "1.5.0"), s, [])

/-- `StdioClient.listTools` (lines 186-194) as a function of the
eventual outcome of its underlying `sendRequest("tools/list", {})`: a
resolution is returned as is (after an unchecked cast), any rejection is
swallowed and replaced by the empty tool list. -/
def listToolsModel (send : String → JVal → Except String JVal) : JVal :=
  match send "tools/list" (JVal.obj []) with
  | Except.ok result => result
  | Except.error _ => JVal.obj [("tools", JVal.arr [])]

/-- `StdioClient.getTool(namespace, name).call(params)` (lines 173-183)
as a function of the eventual outcome of `sendRequest`: the promise is
returned unchanged, with no catch anywhere on the path. -/
def getToolCallModel (ns nm : String) (params : JVal)
    (send : String → JVal → Except String JVal) : Except String JVal :=
  send "tools/call"
    (JVal.obj [("name", JVal.str (ns ++ "-" ++ nm)), ("arguments", params)])

theorem tget_tdel_self (t : List (String × PendingEntry)) (i : String) :
    tget (tdel t i) i = none := by
  induction t with
  | nil => rfl
  | cons p rest ih =>
    by_cases h : p.1 = i
    · simpa [tdel, h] using ih
    · simp [tdel, tget, h, ih]

theorem tget_tdel_ne (t : List (String × PendingEntry)) (i j : String)
    (h : j ≠ i) : tget (tdel t i) j = tget t j := by
  induction t with
  | nil => rfl
  | cons p rest ih =>
    rcases p with ⟨k, v⟩
    by_cases hk : k = i
    · have hij : ¬(i = j) := fun hij => h hij.symm
      simp [tdel, tget, hk, hij, ih]
    · by_cases hj : k = j
      · subst hj
        simp [tdel, tget, hk]
      · simp [tdel, tget, hk, hj, ih]

theorem tget_tset_self (t : List (String × PendingEntry)) (k : String)
    (v : PendingEntry) : tget (tset t k v) k = some v := by
  induction t with
  | nil => simp [tset, tget]
  | cons p rest ih =>
    by_cases h : p.1 = k <;> simp [tset, tget, h, ih]

theorem natDigitsAux_eq (f : Nat) : ∀ n, n ≤ f → natDigitsAux f n = Nat.digits 10 n := by
  induction f with
  | zero =>
    intro n hn
    interval_cases n
    simp [natDigitsAux]
  | succ f ih =>
    intro n hn
    match n with
    | 0 => simp [natDigitsAux]
    | Nat.succ m =>
      have hdiv : (m + 1) / 10 ≤ f := by
        have := Nat.div_lt_self (Nat.succ_pos m) (by norm_num : 1 < 10)
        omega
      have hstep : natDigitsAux (f + 1) (m + 1)
          = ((m + 1) % 10) :: natDigitsAux f ((m + 1) / 10) := rfl
      rw [hstep, ih _ hdiv]
      exact (Nat.digits_def' (by norm_num : 1 < 10) (Nat.succ_pos m)).symm

theorem digitVal_jsDigitChar (d : Nat) (h : d < 10) :
    digitVal (jsDigitChar d) = d := by
  interval_cases d <;> rfl

theorem decodeId_jsString (n : Nat) : decodeId (jsString n) = n := by
  by_cases h : n = 0
  · subst h; simp [jsString, decodeId, digitVal, Nat.ofDigits]
  · rw [jsString, if_neg h, natDigitsAux_eq n n le_rfl]
    show Nat.ofDigits 10
      (((((Nat.digits 10 n).map jsDigitChar).reverse).map digitVal).reverse) = n
    rw [← List.map_reverse, List.reverse_reverse, List.map_map]
    have hmap : (Nat.digits 10 n).map (digitVal ∘ jsDigitChar) = Nat.digits 10 n := by
      have : ∀ d ∈ Nat.digits 10 n, (digitVal ∘ jsDigitChar) d = id d := by
        intro d hd
        exact digitVal_jsDigitChar d (Nat.digits_lt_base (by norm_num) hd)
      rw [List.map_congr_left this, List.map_id]
    rw [hmap, Nat.ofDigits_digits]

theorem jsString_injOn_lt (m n : Nat) (h : m < n) : jsString m ≠ jsString n := by
  intro heq
  have := congrArg decodeId heq
  rw [decodeId_jsString, decodeId_jsString] at this
  omega

theorem allocIds_append (a b : List Event) :
    allocIds (a ++ b) = allocIds a ++ allocIds b := by
  simp [allocIds, List.filterMap_append]

theorem allocIds_runSends (st : ClientState) (calls : List (String × JVal)) :
    allocIds (runSends st calls).2
      = (List.range calls.length).map (fun k => jsString (st.messageId + k)) := by
  induction calls generalizing st with
  | nil => rfl
  | cons c rest ih =>
    have hrun : (runSends st (c :: rest)).2
        = (sendRequest st c.1 c.2).2 ++ (runSends (sendRequest st c.1 c.2).1 rest).2 := rfl
    have h1 : allocIds (sendRequest st c.1 c.2).2 = [jsString st.messageId] := rfl
    have h2 : (sendRequest st c.1 c.2).1.messageId = st.messageId + 1 := rfl
    rw [hrun, allocIds_append, h1, ih, h2, List.length_cons,
      List.range_succ_eq_map, List.map_cons, List.map_map]
    have h3 : (fun k => jsString (st.messageId + k)) ∘ Nat.succ
        = fun k => jsString (st.messageId + 1 + k) := by
      funext k
      show jsString (st.messageId + (k + 1)) = jsString (st.messageId + 1 + k)
      congr 1
      omega
    rw [h3, Nat.add_zero]
    rfl

theorem processLines_append (st : ClientState) (a b : List String) :
    processLines st (a ++ b)
      = ((processLines (processLines st a).1 b).1,
         (processLines st a).2 ++ (processLines (processLines st a).1 b).2) := by
  induction a generalizing st with
  | nil => simp [processLines]
  | cons l rest ih => simp [processLines, ih, List.append_assoc]

theorem outcomes_append (a b : List Event) :
    outcomes (a ++ b) = outcomes a ++ outcomes b := by
  simp [outcomes, List.filter_append]

theorem outcomes_of_diag (evs : List Event) (h : evs.all isDiag = true) :
    outcomes evs = [] := by
  induction evs with
  | nil => rfl
  | cons e rest ih =>
    rw [List.all_cons, Bool.and_eq_true] at h
    have he : isOutcome e = false := by
      cases e <;> simp_all [isDiag, isOutcome]
    simp only [outcomes] at ih ⊢
    rw [List.filter_cons, he]
    simpa using ih h.2

theorem handleLine_malformed (st : ClientState) (m : String)
    (h : startsWithBrace m = false ∨ jsonParse m = none) :
    (handleLine st m).1 = st ∧ (handleLine st m).2.all isDiag = true := by
  by_cases hm : m = ""
  · subst hm; exact ⟨rfl, rfl⟩
  · cases hbr : startsWithBrace m
    · simp [handleLine, hm, hbr, isDiag]
    · have hpn : jsonParse m = none := by
        rcases h with h | h
        · rw [h] at hbr; exact absurd hbr (by simp)
        · exact h
      simp [handleLine, hm, hbr, hpn, isDiag]

/-- Claim C1: a Response Envelope whose `id` (a non-empty string, as all
allocated identifiers are) matches a pending entry settles exactly that
request: its timeout is cancelled; if the envelope carries an `error`
object the request is rejected with the remote error message, and if it
carries no `error` it is resolved with the `result` value; the entry is
removed while every other entry is untouched; and a later envelope with
the same `id` only logs and changes nothing. -/
theorem response_correlates (st : ClientState) (line : String) (v : JVal)
    (i : String) (e : PendingEntry)
    (hb : startsWithBrace line = true)
    (hp : jsonParse line = some v)
    (hid : getField v "id" = some (JVal.str i))
    (hne : i ≠ "")
    (hmem : tget st.table i = some e) :
    tget (handleLine st line).1.table i = none
    ∧ (∀ j, j ≠ i → tget (handleLine st line).1.table j = tget st.table j)
    ∧ (handleLine st line).1.messageId = st.messageId
    ∧ (∀ efs, getField v "error" = some (JVal.obj efs) →
        (handleLine st line).2
          = [Event.cancelTimeout i, Event.rejected i (errMsg (getField v "error"))])
    ∧ (getField v "error" = none →
        (handleLine st line).2
          = [Event.cancelTimeout i, Event.resolved i (getField v "result")])
    ∧ (∀ line2 v2, startsWithBrace line2 = true → jsonParse line2 = some v2 →
        getField v2 "id" = some (JVal.str i) →
        handleLine (handleLine st line).1 line2
          = ((handleLine st line).1, [Event.diagNoPending i])) := by
  have hl : line ≠ "" := by
    intro h
    rw [h] at hb
    exact absurd hb (by decide)
  have htr : truthy (some (JVal.str i)) = true := by simp [truthy, hne]
  have heq : handleLine st line =
      (⟨tdel st.table i, st.messageId⟩,
        if truthy (getField v "error") then
          [Event.cancelTimeout i, Event.rejected i (errMsg (getField v "error"))]
        else [Event.cancelTimeout i, Event.resolved i (getField v "result")]) := by
    cases herr : truthy (getField v "error") <;>
      simp [handleLine, hl, hb, hp, hid, htr, hmem, herr]
  have hnone : tget (tdel st.table i) i = none := tget_tdel_self st.table i
  refine ⟨?_, ?_, ?_, ?_, ?_, ?_⟩
  · rw [heq]; exact hnone
  · intro j hj; rw [heq]; exact tget_tdel_ne st.table i j hj
  · rw [heq]
  · intro efs hef
    rw [heq, hef]
    simp [truthy]
  · intro h0
    rw [heq, h0]
    simp [truthy]
  · intro line2 v2 hb2 hp2 hid2
    have hl2 : line2 ≠ "" := by
      intro h
      rw [h] at hb2
      exact absurd hb2 (by decide)
    rw [heq]
    simp [handleLine, hl2, hb2, hp2, hid2, htr, hnone]

/-- Witness for C1: the scenario of spec section 8 - a pending request
`"1"`, an error response with message `"boom"`: the entry is removed,
the request is rejected with exactly that message (after the timeout is
cancelled), and replaying the same envelope only logs. -/
theorem response_correlates_witness :
    tget (handleLine ⟨[("1", ⟨"tools/call"⟩)], 2⟩
        "\x7b\"id\":\"1\",\"error\":\x7b\"message\":\"boom\"\x7d\x7d").1.table "1" = none
    ∧ (handleLine ⟨[("1", ⟨"tools/call"⟩)], 2⟩
        "\x7b\"id\":\"1\",\"error\":\x7b\"message\":\"boom\"\x7d\x7d").2
        = [Event.cancelTimeout "1", Event.rejected "1" "boom"]
    ∧ handleLine (handleLine ⟨[("1", ⟨"tools/call"⟩)], 2⟩
        "\x7b\"id\":\"1\",\"error\":\x7b\"message\":\"boom\"\x7d\x7d").1
        "\x7b\"id\":\"1\",\"error\":\x7b\"message\":\"boom\"\x7d\x7d"
        = ((handleLine ⟨[("1", ⟨"tools/call"⟩)], 2⟩
            "\x7b\"id\":\"1\",\"error\":\x7b\"message\":\"boom\"\x7d\x7d").1,
           [Event.diagNoPending "1"]) := by
  have h := response_correlates ⟨[("1", ⟨"tools/call"⟩)], 2⟩
      "\x7b\"id\":\"1\",\"error\":\x7b\"message\":\"boom\"\x7d\x7d"
      (JVal.obj [("id", JVal.str "1"),
                 ("error", JVal.obj [("message", JVal.str "boom")])])
      "1" ⟨"tools/call"⟩ rfl rfl rfl (by decide) rfl
  exact ⟨h.1, h.2.2.2.1 [("message", JVal.str "boom")] rfl,
    h.2.2.2.2.2 _ _ rfl rfl rfl⟩

/-- Claim C2: over any sequence of `sendRequest` calls on one client
instance (identifier allocation `String(this.messageId++)` is one
synchronous step of the JavaScript event loop, so every concurrent
schedule serializes into such a sequence), the allocated identifiers are
pairwise distinct and their numeric values strictly increase in
allocation order. -/
theorem send_identifiers_unique_monotone (st : ClientState)
    (calls : List (String × JVal)) :
    List.Pairwise (fun a b => a ≠ b ∧ decodeId a < decodeId b)
      (allocIds (runSends st calls).2) := by
  rw [allocIds_runSends, List.pairwise_map]
  refine List.Pairwise.imp ?_ (List.pairwise_lt_range calls.length)
  intro k1 k2 hk
  refine ⟨jsString_injOn_lt _ _ (by omega), ?_⟩
  rw [decodeId_jsString, decodeId_jsString]
  omega

/-- Claim C3 (code bug): the framer does NOT buffer a trailing
incomplete line across chunk boundaries.  Feeding the two chunks of the
spec's test (the message split as the bytes of `\x7b"id":"1"` then
`,"result":\x7b\x7d` and a newline) yields zero parsed envelopes, not
the one the specification requires: the first fragment fails to parse
(logged, skipped) and the second does not start with a brace (skipped).
The pending request "1" is never settled by these chunks and stays in
the table. -/
theorem split_message_drops_envelope :
    framedEnvelopes ["\x7b\"id\":\"1\"", ",\"result\":\x7b\x7d\n"] = []
    ∧ (processChunk (processChunk ⟨[("1", ⟨"tools/call"⟩)], 2⟩
        "\x7b\"id\":\"1\"").1 ",\"result\":\x7b\x7d\n").1
        = ⟨[("1", ⟨"tools/call"⟩)], 2⟩
    ∧ outcomes ((processChunk ⟨[("1", ⟨"tools/call"⟩)], 2⟩ "\x7b\"id\":\"1\"").2
        ++ (processChunk (processChunk ⟨[("1", ⟨"tools/call"⟩)], 2⟩
             "\x7b\"id\":\"1\"").1 ",\"result\":\x7b\x7d\n").2) = [] :=
  ⟨rfl, rfl, rfl⟩

/-- Claim C4: when the timeout callback fires while its request is still
pending (no matching response has removed the entry), the entry is
removed from the table and the call is rejected with the timeout error
naming the method; afterwards the identifier is no longer in the table. -/
theorem timeout_rejects_and_clears (st : ClientState) (i : String)
    (e : PendingEntry) (h : tget st.table i = some e) :
    fireTimeout st i
      = (⟨tdel st.table i, st.messageId⟩,
         [Event.rejected i ("Request timed out after 10 seconds: " ++ e.method)])
    ∧ tget (fireTimeout st i).1.table i = none := by
  have heq : fireTimeout st i
      = (⟨tdel st.table i, st.messageId⟩,
         [Event.rejected i ("Request timed out after 10 seconds: " ++ e.method)]) := by
    simp [fireTimeout, h]
  exact ⟨heq, by rw [heq]; exact tget_tdel_self st.table i⟩

/-- Witness for C4: a pending `tools/list` request with identifier "0"
times out: it is rejected with the message naming the method and the
table no longer contains "0". -/
theorem timeout_rejects_witness :
    fireTimeout ⟨[("0", ⟨"tools/list"⟩)], 1⟩ "0"
      = (⟨[], 1⟩,
         [Event.rejected "0" "Request timed out after 10 seconds: tools/list"])
    ∧ tget (fireTimeout ⟨[("0", ⟨"tools/list"⟩)], 1⟩ "0").1.table "0" = none := by
  have h := timeout_rejects_and_clears ⟨[("0", ⟨"tools/list"⟩)], 1⟩ "0"
      ⟨"tools/list"⟩ rfl
  exact ⟨h.1.trans (by rfl), h.2⟩

/-- Claim C5 (code bug): on transport closure neither the process-exit
handler nor `shutdownNotionMCPServer` rejects the pending entries with
`TransportClosed` - required by the specification.  Evaluated at a state
with one pending request "0": the entry is still in the table afterwards
and no rejection (or resolution) event is emitted by either path, so the
caller hangs until its individual timeout. -/
theorem transport_close_leaves_pending :
    (onProcessExit ⟨true, true, ⟨[("0", ⟨"tools/call"⟩)], 1⟩⟩).1.client.table
      = [("0", ⟨"tools/call"⟩)]
    ∧ outcomes (onProcessExit ⟨true, true, ⟨[("0", ⟨"tools/call"⟩)], 1⟩⟩).2 = []
    ∧ (shutdownNotionMCPServer ⟨true, true, ⟨[("0", ⟨"tools/call"⟩)], 1⟩⟩).1.client.table
      = [("0", ⟨"tools/call"⟩)]
    ∧ outcomes (shutdownNotionMCPServer ⟨true, true, ⟨[("0", ⟨"tools/call"⟩)], 1⟩⟩).2 = [] :=
  ⟨rfl, rfl, rfl, rfl⟩

/-- Claim C6: a line of a chunk that does not start with a brace or
fails to parse as JSON only produces diagnostics: the post-chunk state
and all caller-visible outcomes equal those of processing the same chunk
without that line, and the malformed line itself leaves any state
unchanged, emits only diagnostic events and resolves or rejects
nothing. -/
theorem malformed_line_isolated (st : ClientState) (c : String)
    (pre post : List String) (m : String)
    (hsplit : chunkLines c = pre ++ m :: post)
    (hm : startsWithBrace m = false ∨ jsonParse m = none) :
    (processChunk st c).1 = (processLines st (pre ++ post)).1
    ∧ outcomes (processChunk st c).2 = outcomes (processLines st (pre ++ post)).2
    ∧ (∀ st2 : ClientState, (handleLine st2 m).1 = st2
        ∧ (handleLine st2 m).2.all isDiag = true
        ∧ outcomes (handleLine st2 m).2 = []) := by
  have hml : ∀ st2 : ClientState, (handleLine st2 m).1 = st2
      ∧ (handleLine st2 m).2.all isDiag = true
      ∧ outcomes (handleLine st2 m).2 = [] := by
    intro st2
    obtain ⟨h1, h2⟩ := handleLine_malformed st2 m hm
    exact ⟨h1, h2, outcomes_of_diag _ h2⟩
  have hchunk : processChunk st c = processLines st (pre ++ m :: post) := by
    rw [processChunk, hsplit]
  have hsingle : ∀ st1 : ClientState,
      processLines st1 (m :: post)
        = ((processLines st1 post).1,
           (handleLine st1 m).2 ++ (processLines st1 post).2) := by
    intro st1
    have h1 := (hml st1).1
    simp only [processLines]
    rw [h1]
  refine ⟨?_, ?_, hml⟩
  · rw [hchunk, processLines_append, processLines_append, hsingle]
  · rw [hchunk, processLines_append, processLines_append, hsingle]
    rw [outcomes_append, outcomes_append, outcomes_append, (hml _).2.2]
    simp

/-- Witness for C6: the chunk with a non-JSON line `noise` interleaved
between two valid result lines behaves, in state and outcomes, exactly
like the two valid lines alone. -/
theorem malformed_line_isolated_witness :
    (processChunk ⟨[("0", ⟨"a"⟩), ("1", ⟨"b"⟩)], 2⟩
        "\x7b\"id\":\"0\",\"result\":1\x7d\nnoise\n\x7b\"id\":\"1\",\"result\":2\x7d").1
      = (processLines ⟨[("0", ⟨"a"⟩), ("1", ⟨"b"⟩)], 2⟩
          ["\x7b\"id\":\"0\",\"result\":1\x7d", "\x7b\"id\":\"1\",\"result\":2\x7d"]).1
    ∧ outcomes (processChunk ⟨[("0", ⟨"a"⟩), ("1", ⟨"b"⟩)], 2⟩
        "\x7b\"id\":\"0\",\"result\":1\x7d\nnoise\n\x7b\"id\":\"1\",\"result\":2\x7d").2
      = outcomes (processLines ⟨[("0", ⟨"a"⟩), ("1", ⟨"b"⟩)], 2⟩
          ["\x7b\"id\":\"0\",\"result\":1\x7d", "\x7b\"id\":\"1\",\"result\":2\x7d"]).2 := by
  have h := malformed_line_isolated ⟨[("0", ⟨"a"⟩), ("1", ⟨"b"⟩)], 2⟩
      "\x7b\"id\":\"0\",\"result\":1\x7d\nnoise\n\x7b\"id\":\"1\",\"result\":2\x7d"
      ["\x7b\"id\":\"0\",\"result\":1\x7d"] ["\x7b\"id\":\"1\",\"result\":2\x7d"]
      "noise" rfl (Or.inl rfl)
  exact ⟨h.1, h.2.1⟩

/-- Claim C7: whatever outcome the underlying send of `tools/list`
has, `listTools` never propagates a failure: a rejection yields the
empty tool list, a resolution is returned as is; while a tool call via
`getTool(...).call(...)` (plain `sendRequest` with no catch) propagates
any rejection unchanged to its caller. -/
theorem listTools_swallows_send_failure
    (send : String → JVal → Except String JVal) (ns nm : String) (params : JVal) :
    (∀ err, send "tools/list" (JVal.obj []) = Except.error err →
      listToolsModel send = JVal.obj [("tools", JVal.arr [])])
    ∧ (∀ result, send "tools/list" (JVal.obj []) = Except.ok result →
      listToolsModel send = result)
    ∧ (∀ err, send "tools/call"
          (JVal.obj [("name", JVal.str (ns ++ "-" ++ nm)), ("arguments", params)])
          = Except.error err →
      getToolCallModel ns nm params send = Except.error err) := by
  refine ⟨?_, ?_, ?_⟩ <;> intro x hx <;> simp [listToolsModel, getToolCallModel, hx]

/-- Witness for C7: with a transport whose every send rejects with
"boom", `listTools` still returns the empty tool list while the direct
tool call rejects with "boom". -/
theorem listTools_swallows_witness :
    listToolsModel (fun _ _ => Except.error "boom")
      = JVal.obj [("tools", JVal.arr [])]
    ∧ getToolCallModel "API" "post-search" (JVal.obj [])
        (fun _ _ => Except.error "boom") = Except.error "boom" := by
  have h := listTools_swallows_send_failure (fun _ _ => Except.error "boom")
      "API" "post-search" (JVal.obj [])
  exact ⟨h.1 "boom" rfl, h.2.2 "boom" rfl⟩

/-- Claim C8: `shutdownNotionMCPServer` is idempotent - with no process
running it is a no-op, and a second call after any first call is a
no-op - and in no case does it touch the pending request table: the
table is unchanged and no pending request is resolved or rejected. -/
theorem shutdown_idempotent_keeps_table (s : SysState) :
    (s.procRunning = false → shutdownNotionMCPServer s = (s, []))
    ∧ shutdownNotionMCPServer (shutdownNotionMCPServer s).1
        = ((shutdownNotionMCPServer s).1, [])
    ∧ (shutdownNotionMCPServer s).1.client.table = s.client.table
    ∧ outcomes (shutdownNotionMCPServer s).2 = [] := by
  by_cases h : s.procRunning <;>
    simp [shutdownNotionMCPServer, h, outcomes, isOutcome]

/-- Witness for C8: stopping when no process is running, with a pending
entry still in the (unreachable but live) client object, changes
nothing and emits nothing. -/
theorem shutdown_idempotent_witness :
    shutdownNotionMCPServer ⟨false, false, ⟨[("0", ⟨"a"⟩)], 1⟩⟩
      = (⟨false, false, ⟨[("0", ⟨"a"⟩)], 1⟩⟩, []) := by
  exact (shutdown_idempotent_keeps_table ⟨false, false, ⟨[("0", ⟨"a"⟩)], 1⟩⟩).1 rfl

/-- Claim C9: `getServerInfo` returns the fixed record
`(name, version) = ("notion-mcp-server", "1.5.0")` in every state,
leaves the state unchanged, and performs no transport operation (no
events) - and, returning rather than throwing, it never rejects. -/
theorem getServerInfo_fixed_pure (s : SysState) :
    (getServerInfo s).1 = ("notion-mcp-server", "1.5.0")
    ∧ (getServerInfo s).2.1 = s
    ∧ (getServerInfo s).2.2 = [] :=
  ⟨rfl, rfl, rfl⟩

/-- Claim C10: in every `sendRequest` call, the pending entry under the
fresh identifier is in the table of the resulting state, and in the
event sequence of the call both the insertion of that entry and the
arming of its timeout occur strictly before the write of the serialized
request line to the process input stream. -/
theorem pending_inserted_before_write (st : ClientState) (method : String)
    (params : JVal) :
    tget (sendRequest st method params).1.table (jsString st.messageId)
      = some ⟨method⟩
    ∧ precedes (Event.insertPending (jsString st.messageId))
        (Event.wrote (requestLine (jsString st.messageId) method params))
        (sendRequest st method params).2
    ∧ precedes (Event.armTimeout (jsString st.messageId))
        (Event.wrote (requestLine (jsString st.messageId) method params))
        (sendRequest st method params).2 := by
  refine ⟨tget_tset_self _ _ _, ?_, ?_⟩
  · exact ⟨⟨1, by simp [sendRequest]⟩, ⟨2, by simp [sendRequest]⟩, by norm_num, rfl, rfl⟩
  · exact ⟨⟨0, by simp [sendRequest]⟩, ⟨2, by simp [sendRequest]⟩, by norm_num, rfl, rfl⟩
